import Mathlib

/-!
Verification development for the interactive JSON tree explorer and its
selection/prefetch flow (Go sources: internal/tui/json_explorer.go and the
unified flow file).  Strings are modelled as lists of characters (Go indexes
bytes; all widths and counts in the claims are about space/tab/ASCII
characters, where the two coincide).  Machine integers are modelled as Int
where Go uses int; none of the verified paths overflow 64-bit ints for the
inputs quantified over.
-/

namespace GhPrComments

/-- Characters of a string, the model of a Go string for wrapping math. -/
abbrev Chars := List Char

/-- Space or tab, the cutset of the TrimLeft and TrimRight calls that
wrapString uses to measure leading and trailing whitespace. -/
def isWrapSpace (c : Char) : Bool := c = ' ' || c = '\t'

/-- Number of leading space and tab characters of a string.  Models the Go
expression len(s) - len(strings.TrimLeft(s, " \t")). -/
def leadingWsCount (s : Chars) : Nat := (s.takeWhile isWrapSpace).length

/-- Number of trailing space and tab characters of a string.  Models the Go
expression len(s) - len(strings.TrimRight(s, " \t")). -/
def trailingWsCount (s : Chars) : Nat := (s.reverse.takeWhile isWrapSpace).length

/-- Token of the word-wrap core: a maximal run of whitespace or a maximal
run of non-whitespace characters. -/
inductive WrapTok where
  | sp (run : Chars)
  | wd (run : Chars)

/-- Splits a string into alternating maximal whitespace and word runs. -/
def wrapTokens : Chars → List WrapTok
  | [] => []
  | c :: rest =>
    if isWrapSpace c then
      match wrapTokens rest with
      | .sp r :: t => .sp (c :: r) :: t
      | ts => .sp [c] :: ts
    else
      match wrapTokens rest with
      | .wd r :: t => .wd (c :: r) :: t
      | ts => .wd [c] :: ts

/-- Characters carried by a token list, in order. -/
def toksText : List WrapTok → Chars
  | [] => []
  | .sp r :: t => r ++ toksText t
  | .wd r :: t => r ++ toksText t

/-- State of the greedy word-wrap: finished lines, the current line, and the
run of whitespace buffered since the last word (written out only when a
further word fits on the same line; dropped at a line break and at the end
of input). -/
structure WrapState where
  done : List Chars
  cur : Chars
  pend : Chars

/-- Modelled from the spec: one step of the word-boundary wrap used by
wrapString.  The underlying wrap engine (muesli/reflow wordwrap) is a
third-party dependency whose source is not part of this repository; the
spec describes it as a word-preserving wrap that breaks only at word
boundaries, never hard-breaks inside a word, and may trim whitespace
(which wrapString restores at the edges).  Accordingly a word is appended
to the current line when it fits together with the buffered whitespace
(or the line is still empty with nothing buffered, so long words overflow
rather than being hard-broken); otherwise the line is closed and the
buffered whitespace separating the two lines is consumed. -/
def wrapStep (width : Nat) (st : WrapState) : WrapTok → WrapState
  | .sp r => { st with pend := st.pend ++ r }
  | .wd r =>
    if st.cur.length + st.pend.length + r.length ≤ width || (st.cur.isEmpty && st.pend.isEmpty) then
      { done := st.done, cur := st.cur ++ st.pend ++ r, pend := [] }
    else
      { done := st.done ++ [st.cur], cur := r, pend := [] }

/-- Modelled from the spec: the word-boundary wrap core producing the list
of lines (the Go code computes wordwrap.String and splits on newline).
Trailing buffered whitespace is dropped, matching a wrap engine that trims
whitespace, which is exactly the case wrapString compensates for. -/
def wordWrapModel (s : Chars) (width : Nat) : List Chars :=
  let fin := (wrapTokens s).foldl (wrapStep width) ⟨[], [], []⟩
  fin.done ++ [fin.cur]

/-- Model of wrapString from json_explorer.go: guards non-positive widths,
wraps via the word-wrap core, then restores leading whitespace onto the
first produced line (returning the original string whole when the restored
first line would reach the width) and trailing whitespace onto the last
produced line. -/
def wrapString (s : Chars) (width : Int) : List Chars :=
  if width ≤ 0 then [s]
  else
    let originalLeading := leadingWsCount s
    let originalTrailing := trailingWsCount s
    let lines := wordWrapModel s width.toNat
    if lines.length = 0 then [s]
    else
      let first := lines.headI
      let actualLeading := leadingWsCount first
      let missingSpaces := s.take (originalLeading - actualLeading)
      if originalLeading > 0 ∧ actualLeading < originalLeading ∧
          ((missingSpaces.length + first.length : Int) ≥ width) then [s]
      else
        let lines1 :=
          if originalLeading > 0 ∧ actualLeading < originalLeading then
            lines.modifyHead (fun l => missingSpaces ++ l)
          else lines
        let lastLine := lines1.getLastD []
        let actualTrailing := trailingWsCount lastLine
        if originalTrailing > 0 ∧ actualTrailing < originalTrailing then
          lines1.dropLast ++ [lastLine ++ s.drop (s.length - originalTrailing + actualTrailing)]
        else lines1

/-- Well-formedness of a wrap token: a run is nonempty and homogeneously
whitespace or non-whitespace. -/
def wrapTokWf : WrapTok → Prop
  | .sp r => r ≠ [] ∧ ∀ c ∈ r, isWrapSpace c = true
  | .wd r => r ≠ [] ∧ ∀ c ∈ r, isWrapSpace c = false

/-- Invariant of the wrap fold while no break has occurred: no line has
been flushed, the pending run is whitespace, and the current line is empty
or ends in a non-whitespace character. -/
def WrapStateInv (st : WrapState) : Prop :=
  st.done = [] ∧ (∀ c ∈ st.pend, isWrapSpace c = true) ∧
    (st.cur = [] ∨ ∃ c, st.cur.getLast? = some c ∧ isWrapSpace c = false)

/-- Decoded JSON value handed to the explorer (the output of json.Unmarshal
into interface-typed Go data; object fields are kept in the order the
decoder yields, numbers are restricted to the integral values the claims
quantify over). -/
inductive JSONVal where
  | str (s : String)
  | num (n : Int)
  | boolean (b : Bool)
  | null
  | arr (items : List JSONVal)
  | obj (fields : List (String × JSONVal))

/-- Lowercasing of a string, the model of strings.ToLower (per-character;
the ASCII range is what the claims exercise). -/
def strToLower (s : String) : String := ⟨s.data.map Char.toLower⟩

/-- Boolean test that a list starts with the given pattern. -/
def startsWithChars : Chars → Chars → Bool
  | _, [] => true
  | [], _ :: _ => false
  | h :: t, n :: nt => h == n && startsWithChars t nt

/-- Boolean substring test, the model of strings.Contains. -/
def containsChars : Chars → Chars → Bool
  | [], needle => needle.isEmpty
  | h :: t, needle => startsWithChars (h :: t) needle || containsChars t needle

mutual
/-- Default Go formatting of a decoded JSON value, the model of the
fmt.Sprintf with a v verb applied to node.Value (scalars print their plain
form, nil prints as a bracketed nil marker, slices print space-separated in
brackets, maps print with a map prefix; Go additionally sorts map keys,
which no claim depends on). -/
def goFmtV : JSONVal → String
  | .str s => s
  | .num n => toString n
  | .boolean b => if b then "true" else "false"
  | .null => "<nil>"
  | .arr items => "[" ++ goFmtVList items ++ "]"
  | .obj fields => "map[" ++ goFmtVFields fields ++ "]"

/-- Space-separated rendering of slice elements for goFmtV. -/
def goFmtVList : List JSONVal → String
  | [] => ""
  | [v] => goFmtV v
  | v :: rest => goFmtV v ++ " " ++ goFmtVList rest

/-- Space-separated key colon value rendering of map entries for goFmtV. -/
def goFmtVFields : List (String × JSONVal) → String
  | [] => ""
  | [(k, v)] => k ++ ":" ++ goFmtV v
  | (k, v) :: rest => k ++ ":" ++ goFmtV v ++ " " ++ goFmtVFields rest
end

/-- Node of the JSON tree (struct JSONNode in json_explorer.go).  The Parent
back-pointer is not carried: it is used only for collapse-to-parent
navigation, which no claim exercises, and the Index and LineNumber fields
assigned during flattening are the position in the flattened list.  The
PhysicalLines and PhysicalOffset fields are recorded by the render pass. -/
inductive JSONNode where
  | mk (key : String) (value : JSONVal) (type : String) (children : List JSONNode)
      (expanded : Bool) (depth : Nat) (matchesSearch : Bool)
      (physicalLines : Int) (physicalOffset : Int)

/-- Key label of a node. -/
def JSONNode.key : JSONNode → String
  | .mk k _ _ _ _ _ _ _ _ => k

/-- Raw decoded value of a node. -/
def JSONNode.value : JSONNode → JSONVal
  | .mk _ v _ _ _ _ _ _ _ => v

/-- Type tag of a node (object, array, string, number, bool, null). -/
def JSONNode.type : JSONNode → String
  | .mk _ _ ty _ _ _ _ _ _ => ty

/-- Ordered children of a node. -/
def JSONNode.children : JSONNode → List JSONNode
  | .mk _ _ _ c _ _ _ _ _ => c

/-- Expansion flag of a node. -/
def JSONNode.expanded : JSONNode → Bool
  | .mk _ _ _ _ e _ _ _ _ => e

/-- Depth of a node, fixed at construction. -/
def JSONNode.depth : JSONNode → Nat
  | .mk _ _ _ _ _ d _ _ _ => d

/-- Search-match flag of a node. -/
def JSONNode.matchesSearch : JSONNode → Bool
  | .mk _ _ _ _ _ _ m _ _ => m

/-- Number of physical screen rows recorded for a node by the last render. -/
def JSONNode.physicalLines : JSONNode → Int
  | .mk _ _ _ _ _ _ _ pl _ => pl

/-- Cumulative physical row offset recorded for a node by the last render. -/
def JSONNode.physicalOffset : JSONNode → Int
  | .mk _ _ _ _ _ _ _ _ po => po

/-- Node with its search-match flag replaced (the in-place write
node.Matches = b of applySearch). -/
def JSONNode.setMatches : JSONNode → Bool → JSONNode
  | .mk k v ty c e d _ pl po, b => .mk k v ty c e d b pl po

/-- Node with its physical row span and offset replaced (the in-place
writes of renderTree). -/
def JSONNode.setPhysical : JSONNode → Int → Int → JSONNode
  | .mk k v ty c e d m _ _, pl, po => .mk k v ty c e d m pl po

mutual
/-- Model of buildTree: recursively wraps a decoded JSON value, auto
expanding the first two depth levels; array children are keyed by their
bracketed index, object children by their field name in decoder order (Go
iterates the decoded map, whose order is unspecified; the embedding fixes
the order the decoder yielded, which every claim is insensitive to). -/
def buildTree (key : String) (value : JSONVal) (depth : Nat) : JSONNode :=
  match value with
  | .str s => .mk key (.str s) "string" [] (depth < 2) depth false 0 0
  | .num n => .mk key (.num n) "number" [] (depth < 2) depth false 0 0
  | .boolean b => .mk key (.boolean b) "bool" [] (depth < 2) depth false 0 0
  | .null => .mk key .null "null" [] (depth < 2) depth false 0 0
  | .arr items => .mk key (.arr items) "array" (buildTreeArr items 0 depth) (depth < 2) depth false 0 0
  | .obj fields => .mk key (.obj fields) "object" (buildTreeObj fields depth) (depth < 2) depth false 0 0

/-- Children of an array node, keyed by bracketed position. -/
def buildTreeArr : List JSONVal → Nat → Nat → List JSONNode
  | [], _, _ => []
  | v :: rest, i, depth =>
    buildTree ("[" ++ toString i ++ "]") v (depth + 1) :: buildTreeArr rest (i + 1) depth

/-- Children of an object node, keyed by field name. -/
def buildTreeObj : List (String × JSONVal) → Nat → List JSONNode
  | [], _ => []
  | (k, v) :: rest, depth => buildTree k v (depth + 1) :: buildTreeObj rest depth
end

mutual
/-- Model of flattenTree: depth-first pre-order linearization of the tree;
a node is emitted, then its children are traversed exactly when the node is
expanded and has children.  The Go code also assigns Index and LineNumber,
which are the position in the returned list and that position plus one. -/
def flattenTree (root : JSONNode) : List JSONNode :=
  match root with
  | .mk k v ty c e d m pl po =>
    .mk k v ty c e d m pl po :: (if e ∧ c.length > 0 then flattenTreeList c else [])

/-- Concatenated flattening of a list of sibling subtrees. -/
def flattenTreeList : List JSONNode → List JSONNode
  | [] => []
  | n :: rest => flattenTree n ++ flattenTreeList rest
end

mutual
/-- Model of expandAll: recursively sets the expansion flag of every node. -/
def expandAll : JSONNode → JSONNode
  | .mk k v ty c _ d m pl po => .mk k v ty (expandAllList c) true d m pl po

/-- expandAll applied to each subtree of a list. -/
def expandAllList : List JSONNode → List JSONNode
  | [] => []
  | n :: rest => expandAll n :: expandAllList rest
end

mutual
/-- Model of hasMatchingChild: whether any strict descendant of the node
carries the search-match flag. -/
def hasMatchingChild : JSONNode → Bool
  | .mk _ _ _ c _ _ _ _ _ => hasMatchingChildList c

/-- Descendant search over a list of children. -/
def hasMatchingChildList : List JSONNode → Bool
  | [] => false
  | child :: rest => child.matchesSearch || hasMatchingChild child || hasMatchingChildList rest
end

/-- Model of applySearch: lowercases the query, then marks each node of the
flat list as matching exactly when the query is non-empty and occurs in the
lowercased key or in the lowercased default-format string of the value (the
Go code writes the flag through shared node pointers; the embedding maps
over the flat list, which carries the same per-node outcome). -/
def applySearch (searchQuery : String) (flatNodes : List JSONNode) : List JSONNode :=
  let query := strToLower searchQuery
  flatNodes.map (fun node =>
    if query = "" then node.setMatches false
    else if containsChars (strToLower node.key).data query.data then node.setMatches true
    else if containsChars (strToLower (goFmtV node.value)).data query.data then node.setMatches true
    else node.setMatches false)

/-- State of the JSON explorer (struct JSONExplorerModel).  The bubbles
viewport is carried as its width, height and vertical offset; the text
input is carried as its current value; rendered ANSI content is
display-only and not tracked. -/
structure JSONExplorerModel where
  tree : JSONNode
  flatNodes : List JSONNode
  cursor : Int
  searchMode : Bool
  searchInput : String
  searchQuery : String
  filterActive : Bool
  width : Int
  height : Int
  vpWidth : Int
  vpHeight : Int
  yOffset : Int
  quitting : Bool

/-- Model of NewJSONExplorerModel on an already decoded value (the Go
function first runs json.Unmarshal, whose failure path is outside the
decoded-value domain of the embedding): builds the tree, flattens it,
starts the cursor at zero and the viewport at its default size. -/
def newJSONExplorerModel (value : JSONVal) : JSONExplorerModel :=
  let tree := buildTree "" value 0
  { tree := tree
    flatNodes := flattenTree tree
    cursor := 0
    searchMode := false
    searchInput := ""
    searchQuery := ""
    filterActive := false
    width := 0
    height := 0
    vpWidth := 100
    vpHeight := 30
    yOffset := 0
    quitting := false }

/-- Zero value of the explorer struct, produced by the back-navigation
reset in the unified flow. -/
def emptyJSONExplorerModel : JSONExplorerModel :=
  { tree := .mk "" .null "" [] false 0 false 0 0
    flatNodes := []
    cursor := 0
    searchMode := false
    searchInput := ""
    searchQuery := ""
    filterActive := false
    width := 0
    height := 0
    vpWidth := 0
    vpHeight := 0
    yOffset := 0
    quitting := false }

/-- Width consumed left of the value on a node's first row: indentation,
cursor marker, expand glyph, and the key with its separator when present
(renderTree computes it as len(indent) + 2 + 2 and adds len(key) + 2). -/
def prefixWidth (node : JSONNode) : Nat :=
  2 * node.depth + 2 + 2 + (if node.key ≠ "" then node.key.length + 2 else 0)

/-- Model of renderValue restricted to the produced lines: object and array
nodes render a one-line summary, strings wrap to the available width with a
floor of twenty columns, other scalars render on one line.  ANSI styling
and the quoting of the first string line change only the bytes within a
line, never the line structure, and are not modelled. -/
def renderValueLines (width : Int) (node : JSONNode) (pw : Nat) : List Chars :=
  match node.type with
  | "object" =>
    let count := node.children.length
    if node.expanded then [("{} " ++ toString count ++ " keys").data]
    else [("{...} " ++ toString count ++ " keys").data]
  | "array" =>
    let count := node.children.length
    if node.expanded then [("[] " ++ toString count ++ " items").data]
    else [("[...] " ++ toString count ++ " items").data]
  | "string" =>
    let str := goFmtV node.value
    let availableWidth := width - (pw : Int) - 4
    let availableWidth := if availableWidth < 20 then 20 else availableWidth
    wrapString str.data availableWidth
  | "number" => [(goFmtV node.value).data]
  | "bool" => [(goFmtV node.value).data]
  | "null" => ["null".data]
  | _ => [(goFmtV node.value).data]

/-- Physical row count renderTree records for one node: the number of
wrapped value lines with a floor of one. -/
def renderLineCount (width : Int) (node : JSONNode) : Nat :=
  max 1 (renderValueLines width node (prefixWidth node)).length

/-- Core of the render pass of renderTree: walks the flat list, skips the
entries hidden by an active filter, and records on every rendered entry its
physical row span and the cumulative physical offset of all earlier
rendered entries.  Returns the rendered entries with their recorded
fields. -/
def renderTreeLayout (filterActive : Bool) (width : Int) :
    List JSONNode → Int → List JSONNode
  | [], _ => []
  | node :: rest, physicalOffset =>
    if filterActive ∧ ¬node.matchesSearch ∧ ¬hasMatchingChild node then
      renderTreeLayout filterActive width rest physicalOffset
    else
      let lineCount := renderLineCount width node
      node.setPhysical (lineCount : Int) physicalOffset ::
        renderTreeLayout filterActive width rest (physicalOffset + (lineCount : Int))

/-- Rendered entries of a render pass over the explorer state, with the
physical line spans and offsets renderTree records on them. -/
def renderTreeEntries (m : JSONExplorerModel) : List JSONNode :=
  renderTreeLayout m.filterActive m.width m.flatNodes 0

/-- Scroll arithmetic of ensureCursorVisible: scroll up to the cursor row
when it is above the viewport top, then scroll down (with a floor of zero)
when the entry's last row is below the viewport bottom, so that the last
row becomes the viewport's last row.  The intermediate model written by the
first SetYOffset differs only in this vertical offset, so the computation
is a function of the recorded offset and span and the viewport geometry. -/
def ensureVisibleYOffset (cursorY physicalLines yOffset vpHeight : Int) : Int :=
  let y1 := if cursorY < yOffset then cursorY else yOffset
  let cursorBottom := cursorY + physicalLines - 1
  let viewportBottom := y1 + vpHeight - 1
  if cursorBottom > viewportBottom then
    let newOffset := cursorBottom - vpHeight + 1
    if newOffset < 0 then 0 else newOffset
  else y1

/-- Model of ensureCursorVisible: with the cursor in range, scrolls the
viewport using the physical row offsets recorded on the cursor node.  The
bubbles SetYOffset call is modelled as assignment of the vertical offset
(the code clamps its own candidate at zero before calling it). -/
def ensureCursorVisible (m : JSONExplorerModel) : JSONExplorerModel :=
  if m.cursor < 0 ∨ m.cursor ≥ (m.flatNodes.length : Int) then m
  else
    match m.flatNodes.get? m.cursor.toNat with
    | none => m
    | some cursorNode =>
      let newY := ensureVisibleYOffset cursorNode.physicalOffset cursorNode.physicalLines m.yOffset m.vpHeight
      { m with yOffset := newY }

/-- Summary of a pull request as the TUI carries it.  Only the fields the
verified flow paths read are carried; CommentsJSON is the prefetched
payload, with none standing for absent or zero-length bytes. -/
structure PullRequestSummary where
  number : Int
  title : String
  commentsJSON : Option JSONVal

/-- Message consumed by the unified flow event loop: a key press, a window
resize, or one of the two prefetch completion messages. -/
inductive FlowMsg where
  | key (k : String)
  | windowSize (w h : Int)
  | prefetchComplete (prs : List PullRequestSummary) (errs : List String)
  | prefetchError (e : String)

/-- Model of the explorer's Update for the messages the claims exercise.
In search mode, escape and interrupt leave search mode, enter commits the
query (activating the filter exactly when it is non-empty) and re-marks the
flat list; other keys append to the text input.  In normal mode the quit
keys set the quitting flag, the cursor keys move and re-scroll, and escape
clears the query.  The branches that toggle expansion, copy values or open
URLs mutate only the tree and external surfaces, which the claims address
through the tree-level functions, so they leave the tracked state
unchanged.  Window sizes resize the viewport under the three header rows
and the two (or in search mode three) footer rows. -/
def jsonExplorerUpdate (msg : FlowMsg) (m : JSONExplorerModel) : JSONExplorerModel :=
  match msg with
  | .windowSize w h =>
    let headerHeight : Int := 3
    let footerHeight : Int := if m.searchMode then 3 else 2
    { m with width := w, height := h, vpWidth := w, vpHeight := h - headerHeight - footerHeight }
  | .key k =>
    if m.searchMode then
      if k = "esc" ∨ k = "ctrl+c" then { m with searchMode := false }
      else if k = "enter" then
        let q := m.searchInput
        let m1 := { m with searchMode := false, searchQuery := q, filterActive := q != "" }
        { m1 with flatNodes := applySearch q m1.flatNodes }
      else { m with searchInput := m.searchInput ++ k }
    else
      if k = "q" ∨ k = "ctrl+c" then { m with quitting := true }
      else if k = "up" ∨ k = "k" then
        if 0 < m.cursor then ensureCursorVisible { m with cursor := m.cursor - 1 } else m
      else if k = "down" ∨ k = "j" then
        if m.cursor < (m.flatNodes.length : Int) - 1 then
          ensureCursorVisible { m with cursor := m.cursor + 1 }
        else m
      else if k = "esc" then
        { m with searchQuery := "", filterActive := false,
                 flatNodes := applySearch "" m.flatNodes }
      else m
  | _ => m

/-- State of the PR selector (struct PRSelectorModel); the bubbles list is
carried as its items and selected index. -/
structure PRSelectorModel where
  items : List PullRequestSummary
  index : Nat
  choice : Option PullRequestSummary
  quitting : Bool

/-- Model of NewPRSelectorModel: a fresh selector over the given items. -/
def newPRSelectorModel (prs : List PullRequestSummary) : PRSelectorModel :=
  { items := prs, index := 0, choice := none, quitting := false }

/-- Model of the selector's Update: interrupt, q and escape cancel, enter
records the highlighted item as the choice and quits; list navigation and
the open-in-browser side channel leave the tracked state unchanged. -/
def prSelectorUpdate (msg : FlowMsg) (m : PRSelectorModel) : PRSelectorModel :=
  match msg with
  | .key k =>
    if k = "ctrl+c" ∨ k = "q" ∨ k = "esc" then { m with quitting := true }
    else if k = "enter" then
      match m.items.get? m.index with
      | some item => { m with choice := some item, quitting := true }
      | none => m
    else m
  | _ => m

/-- States of the unified flow state machine. -/
inductive FlowState where
  | selectingPR
  | loading
  | exploringJSON
  | quitting
deriving DecidableEq

/-- State of the unified flow (struct UnifiedFlowModel of the prefetching
flow file).  The cancellable prefetch context and spinner are runtime
plumbing outside the state the claims address. -/
structure UnifiedFlowModel where
  state : FlowState
  prSelector : PRSelectorModel
  jsonExplorer : JSONExplorerModel
  selectedPR : Option PullRequestSummary
  jsonData : Option JSONVal
  err : Option String
  skipPRSelect : Bool
  width : Int
  height : Int
  allowBack : Bool
  altScreenActive : Bool

/-- Model of NewUnifiedFlowModel: selection state over prefetched items,
with back navigation allowed. -/
def newUnifiedFlowModel (prs : List PullRequestSummary) : UnifiedFlowModel :=
  { state := .selectingPR
    prSelector := newPRSelectorModel prs
    jsonExplorer := emptyJSONExplorerModel
    selectedPR := none
    jsonData := none
    err := none
    skipPRSelect := false
    width := 0
    height := 0
    allowBack := true
    altScreenActive := false }

/-- Model of NewUnifiedFlowWithJSON on an already decoded value: the flow
starts directly in the exploring state with no selector and back navigation
disallowed. -/
def newUnifiedFlowWithJSON (value : JSONVal) : UnifiedFlowModel :=
  { state := .exploringJSON
    prSelector := { items := [], index := 0, choice := none, quitting := false }
    jsonExplorer := newJSONExplorerModel value
    selectedPR := none
    jsonData := some value
    err := none
    skipPRSelect := true
    width := 0
    height := 0
    allowBack := false
    altScreenActive := false }

/-- Replay of the last window size into a fresh explorer after a state
transition (syncJSONExplorerSize). -/
def syncJSONExplorerSize (m : UnifiedFlowModel) : UnifiedFlowModel :=
  if m.width = 0 ∨ m.height = 0 then m
  else { m with jsonExplorer := jsonExplorerUpdate (.windowSize m.width m.height) m.jsonExplorer }

/-- Model of the unified flow's Update.  A window size is recorded first.
In the selection state an interrupt quits; otherwise the selector consumes
the message, and a quitting selector either carries a choice (whose
prefetched payload is required, then explored) or means cancellation.  In
the loading state a completion message with no surviving items is fatal
with a generic error, and one with items constructs a fresh selector over
them; a prefetch error message is fatal.  In the exploring state the back
key returns to selection when back navigation is allowed, resetting the
explorer and the selector's quitting flag and choice; any other key goes to
the explorer, whose quitting flag then quits the flow. -/
def flowUpdate (msg : FlowMsg) (m0 : UnifiedFlowModel) : UnifiedFlowModel :=
  let m := match msg with
    | .windowSize w h => { m0 with width := w, height := h }
    | _ => m0
  match m.state with
  | .selectingPR =>
    match msg with
    | .key "ctrl+c" => { m with state := .quitting }
    | _ =>
      let ps := prSelectorUpdate msg m.prSelector
      let m1 := { m with prSelector := ps }
      if ps.quitting then
        match ps.choice with
        | some pr =>
          let m2 := { m1 with selectedPR := some pr }
          match pr.commentsJSON with
          | none =>
            { m2 with err := some ("no comments data prefetched for PR #" ++ toString pr.number),
                      state := .quitting }
          | some value =>
            let m3 := { m2 with jsonExplorer := newJSONExplorerModel value,
                                jsonData := some value, state := .exploringJSON }
            syncJSONExplorerSize m3
        | none => { m1 with state := .quitting }
      else m1
  | .loading =>
    match msg with
    | .prefetchComplete prs _errs =>
      if prs.length = 0 then
        { m with err := some "no PRs with comments available", state := .quitting }
      else
        let m1 := { m with prSelector := newPRSelectorModel prs, state := .selectingPR }
        let m2 :=
          if m1.width > 0 ∧ m1.height > 0 then
            { m1 with prSelector := prSelectorUpdate (.windowSize m1.width m1.height) m1.prSelector }
          else m1
        { m2 with altScreenActive := true }
    | .prefetchError e => { m with err := some e, state := .quitting }
    | _ => m
  | .exploringJSON =>
    let back := match msg with
      | .key k => m.allowBack && k == "q"
      | _ => false
    if back then
      { m with state := .selectingPR,
               jsonExplorer := emptyJSONExplorerModel,
               prSelector := { m.prSelector with quitting := false, choice := none } }
    else
      let ex := jsonExplorerUpdate msg m.jsonExplorer
      let m1 := { m with jsonExplorer := ex }
      if ex.quitting then { m1 with state := .quitting } else m1
  | .quitting => m

/-- Model of the result assembly of startPrefetchCmd after all workers have
completed: the recorded outcomes are walked in input order, each error
appended to the error list and each surviving summary appended to the
success list. -/
def collectResults (results : List (Except String PullRequestSummary)) :
    List PullRequestSummary × List String :=
  results.foldl
    (fun acc res =>
      match res with
      | .error warn => (acc.1, acc.2 ++ [warn])
      | .ok pr => (acc.1 ++ [pr], acc.2))
    ([], [])

/-- Model of startPrefetchCmd on a provided item list (the branch that
first discovers repositories and lists their pull requests is upstream of
the orchestrator the claims address).  Each item's fetch pipeline (fetch
comments, normalize, marshal) is the supplied function; a worker writes its
outcome into its own slot of the results array and never fails the group,
so the bounded concurrent execution is the in-order map over the slots.  An
empty batch is rejected up front; otherwise the completion message carries
the in-order successes and the per-item errors. -/
def startPrefetchCmd (prs : List PullRequestSummary)
    (fetchOne : PullRequestSummary → Except String PullRequestSummary) :
    Except String (List PullRequestSummary × List String) :=
  if prs.length = 0 then .error "no pull requests found"
  else .ok (collectResults (prs.map fetchOne))

/-- End-to-end example document of the spec: an object with a short string
under one key and a nested object holding a three-element array. -/
def exampleDoc : JSONVal :=
  .obj [("a", .str "short"), ("b", .obj [("c", .arr [.num 1, .num 2, .num 3])])]

/-- Explorer state whose single flat entry spans five physical rows while
the viewport is two rows high. -/
def tallEntryExplorer : JSONExplorerModel :=
  { emptyJSONExplorerModel with
      flatNodes := [.mk "body" (.str "v") "string" [] false 0 false 5 0]
      cursor := 0
      yOffset := 0
      vpHeight := 2 }

/-- Node recorded in the flat list of tallEntryExplorer. -/
def tallEntryNode : JSONNode := .mk "body" (.str "v") "string" [] false 0 false 5 0

/-- Explorer state whose cursor entry starts above the viewport top. -/
def scrolledExplorer : JSONExplorerModel :=
  { emptyJSONExplorerModel with
      flatNodes := [.mk "body" (.str "v") "string" [] false 0 false 2 5]
      cursor := 0
      yOffset := 9
      vpHeight := 4 }

/-- Node recorded in the flat list of scrolledExplorer. -/
def scrolledExplorerNode : JSONNode := .mk "body" (.str "v") "string" [] false 0 false 2 5

/-- Pull request summaries for the prefetch example batch. -/
def prA : PullRequestSummary := { number := 1, title := "A", commentsJSON := some (.str "a") }

/-- Second summary of the example batch, the one whose fetch fails. -/
def prB : PullRequestSummary := { number := 2, title := "B", commentsJSON := none }

/-- Third summary of the example batch. -/
def prC : PullRequestSummary := { number := 3, title := "C", commentsJSON := some (.str "c") }

/-- Fetch pipeline for the example batch: the second item fails, the others
succeed with their own summary. -/
def fetchOneExample (pr : PullRequestSummary) : Except String PullRequestSummary :=
  if pr.number = 2 then .error "fetch B failed" else .ok pr

/-- Flow state sitting in the loading phase awaiting the prefetch
completion message. -/
def loadingFlow : UnifiedFlowModel :=
  { state := .loading
    prSelector := newPRSelectorModel []
    jsonExplorer := emptyJSONExplorerModel
    selectedPR := none
    jsonData := none
    err := none
    skipPRSelect := false
    width := 0
    height := 0
    allowBack := true
    altScreenActive := false }

/-- Flow state exploring a tree that was entered from the selection list
(back navigation allowed), with the selector still carrying its reported
choice. -/
def exploringFromSelection : UnifiedFlowModel :=
  { newUnifiedFlowModel [prA] with
      state := .exploringJSON
      prSelector := { items := [prA], index := 0, choice := some prA, quitting := true }
      jsonExplorer := newJSONExplorerModel (.str "a") }

/-! Helper lemmas shared by the claim theorems. -/

/-- Setting the match flag leaves it readable. -/
theorem setMatches_matchesSearch (n : JSONNode) (b : Bool) : (n.setMatches b).matchesSearch = b := by
  cases n
  rfl

/-- Setting the physical fields records the span. -/
theorem setPhysical_physicalLines (n : JSONNode) (pl po : Int) :
    (n.setPhysical pl po).physicalLines = pl := by
  cases n
  rfl

/-- Setting the physical fields records the offset. -/
theorem setPhysical_physicalOffset (n : JSONNode) (pl po : Int) :
    (n.setPhysical pl po).physicalOffset = po := by
  cases n
  rfl

/-- Lowercasing maps the empty string to the empty string only. -/
theorem strToLower_eq_empty_iff (q : String) : strToLower q = "" ↔ q = "" := by
  constructor
  · intro h
    have hd : q.data.map Char.toLower = [] := congrArg String.data h
    have : q.data = [] := List.map_eq_nil_iff.mp hd
    cases q
    simp_all
  · intro h
    subst h
    rfl

/-! Claim C10. -/

/-- C10: for every string and every non-positive width, wrapString returns
the single-element list holding the string unmodified. -/
theorem wrap_nonpositive_width_guard (s : Chars) (width : Int) (h : width ≤ 0) :
    wrapString s width = [s] := by
  simp [wrapString, h]

/-- Witness for the non-positive width guard at width zero. -/
theorem wrap_nonpositive_width_guard_witness :
    (0 : Int) ≤ 0 ∧ wrapString ['h', 'i'] 0 = [['h', 'i']] :=
  ⟨le_refl 0, wrap_nonpositive_width_guard ['h', 'i'] 0 (le_refl 0)⟩

/-! Claim C9. -/

/-- C9: for every tree, regardless of its expand flags, flattening emits
the root node first and so is never empty; the explorer constructor starts
the cursor at zero, which therefore always addresses a valid entry. -/
theorem flatten_root_nonempty :
    (∀ t : JSONNode, flattenTree t ≠ [] ∧ (flattenTree t).head? = some t) ∧
    ∀ v : JSONVal, (newJSONExplorerModel v).cursor = 0 ∧
      0 < ((newJSONExplorerModel v).flatNodes.length : Int) := by
  have hroot : ∀ t : JSONNode, flattenTree t ≠ [] ∧ (flattenTree t).head? = some t := by
    intro t
    cases t
    simp [flattenTree]
  refine ⟨hroot, fun v => ⟨rfl, ?_⟩⟩
  have h := hroot (buildTree "" v 0)
  have hne : (newJSONExplorerModel v).flatNodes ≠ [] := h.1
  have : 0 < (newJSONExplorerModel v).flatNodes.length := List.length_pos.mpr hne
  exact_mod_cast this

/-! Claim C5. -/

/-- C5 counterexample: with the auto-expand default (expanded when depth is
below two), the node c sits at depth two and is collapsed, so flattening
the example document yields root, a, b, c only, not the seven-entry
sequence the claim states. -/
theorem flatten_order_counterexample :
    (flattenTree (buildTree "" exampleDoc 0)).map JSONNode.key = ["", "a", "b", "c"] ∧
    (flattenTree (buildTree "" exampleDoc 0)).map JSONNode.key ≠
      ["", "a", "b", "c", "[0]", "[1]", "[2]"] := by
  constructor
  · decide
  · decide

/-- C5 corrected: flattening is depth-first pre-order with children visited
exactly when the node is expanded and has children; on the example document
the default flatten yields root, a, b, c (c is collapsed at depth two), and
once c is expanded (for instance by expand-all) the flatten yields root, a,
b, c, c0, c1, c2 in that order. -/
theorem flatten_order_corrected :
    (∀ n : JSONNode, flattenTree n =
      n :: (if n.expanded ∧ n.children.length > 0 then flattenTreeList n.children else [])) ∧
    (flattenTree (buildTree "" exampleDoc 0)).map JSONNode.key = ["", "a", "b", "c"] ∧
    (flattenTree (expandAll (buildTree "" exampleDoc 0))).map JSONNode.key =
      ["", "a", "b", "c", "[0]", "[1]", "[2]"] := by
  refine ⟨?_, by decide, by decide⟩
  intro n
  cases n
  simp [flattenTree, JSONNode.expanded, JSONNode.children]

/-! Claim C8. -/

/-- C8: applying the empty query clears every node's match flag, and for a
non-empty query a node is marked as matching exactly when the lowercased
query occurs in the lowercased key or in the lowercased default-format
string of the node's value. -/
theorem empty_query_search_policy :
    (∀ flatNodes : List JSONNode, ∀ n ∈ applySearch "" flatNodes, n.matchesSearch = false) ∧
    ∀ (q : String) (flatNodes : List JSONNode), q ≠ "" →
      applySearch q flatNodes = flatNodes.map (fun node => node.setMatches
        (containsChars (strToLower node.key).data (strToLower q).data ||
          containsChars (strToLower (goFmtV node.value)).data (strToLower q).data)) := by
  constructor
  · intro flatNodes n hn
    have hq : strToLower "" = "" := rfl
    simp only [applySearch, hq, if_pos rfl, List.mem_map] at hn
    obtain ⟨x, _, hx⟩ := hn
    rw [← hx]
    exact setMatches_matchesSearch x false
  · intro q flatNodes hq
    have hq2 : ¬(strToLower q = "") := fun h => hq ((strToLower_eq_empty_iff q).mp h)
    simp only [applySearch, if_neg hq2]
    refine List.map_congr_left ?_
    intro n _
    by_cases h1 : containsChars (strToLower n.key).data (strToLower q).data
    · simp [h1]
    · by_cases h2 : containsChars (strToLower (goFmtV n.value)).data (strToLower q).data
      · simp [h1, h2]
      · simp [h1, h2]

/-- Witness for the search policy at a concrete query and node list: the
query b matches the node keyed b and not the node keyed a. -/
theorem empty_query_search_policy_witness :
    ("b" : String) ≠ "" ∧
    applySearch "b" [buildTree "a" (.str "x") 1, buildTree "b" (.str "y") 1] =
      [(buildTree "a" (.str "x") 1).setMatches false,
        (buildTree "b" (.str "y") 1).setMatches true] := by
  refine ⟨by decide, ?_⟩
  have h := empty_query_search_policy.2 "b"
    [buildTree "a" (.str "x") 1, buildTree "b" (.str "y") 1] (by decide)
  rw [h]
  rfl

/-! Claim C2. -/

/-- Unrolling of the result-collection fold from arbitrary accumulators. -/
theorem collectResults_foldl (results : List (Except String PullRequestSummary))
    (acc1 : List PullRequestSummary) (acc2 : List String) :
    results.foldl
      (fun acc res =>
        match res with
        | .error warn => (acc.1, acc.2 ++ [warn])
        | .ok pr => (acc.1 ++ [pr], acc.2))
      (acc1, acc2) =
    (acc1 ++ results.filterMap Except.toOption,
      acc2 ++ results.filterMap (fun res =>
        match res with
        | .error warn => some warn
        | .ok _ => none)) := by
  induction results generalizing acc1 acc2 with
  | nil => simp
  | cons res rest ih =>
    cases res with
    | error warn => simp [List.foldl_cons, ih, Except.toOption]
    | ok pr => simp [List.foldl_cons, ih, Except.toOption]

/-- C2: on every non-empty batch, the orchestrator records each item's
outcome independently (the result is determined slot-by-slot by the item's
own fetch), returns the successful summaries in input order, and records
exactly one error per failing item, also in input order. -/
theorem prefetch_order_partial_failure (prs : List PullRequestSummary)
    (fetchOne : PullRequestSummary → Except String PullRequestSummary) (h : prs ≠ []) :
    startPrefetchCmd prs fetchOne = .ok
      (prs.filterMap (fun pr => (fetchOne pr).toOption),
        prs.filterMap (fun pr =>
          match fetchOne pr with
          | .error warn => some warn
          | .ok _ => none)) := by
  have hlen : ¬(prs.length = 0) := by
    simpa [List.length_eq_zero] using h
  simp only [startPrefetchCmd, if_neg hlen, collectResults, collectResults_foldl,
    List.nil_append, List.filterMap_map]
  rfl

/-- Witness for the prefetch theorem on the batch A, B, C where only B
fails: the successes are A then C and the single recorded error is B's. -/
theorem prefetch_order_partial_failure_witness :
    ([prA, prB, prC] ≠ ([] : List PullRequestSummary)) ∧
    startPrefetchCmd [prA, prB, prC] fetchOneExample =
      .ok ([prA, prC], ["fetch B failed"]) := by
  refine ⟨by simp, ?_⟩
  rw [prefetch_order_partial_failure [prA, prB, prC] fetchOneExample (by simp)]
  rfl

/-! Claim C6. -/

/-- Every rendered entry records at least one physical line. -/
theorem renderTreeLayout_lines_pos (filterActive : Bool) (width : Int) :
    ∀ (ns : List JSONNode) (off : Int) (n : JSONNode),
      n ∈ renderTreeLayout filterActive width ns off → 1 ≤ n.physicalLines := by
  intro ns
  induction ns with
  | nil => intro off n hn; simp [renderTreeLayout] at hn
  | cons x rest ih =>
    intro off n hn
    rw [renderTreeLayout] at hn
    by_cases hskip : filterActive ∧ ¬x.matchesSearch ∧ ¬hasMatchingChild x
    · rw [if_pos hskip] at hn
      exact ih off n hn
    · rw [if_neg hskip] at hn
      rcases List.mem_cons.mp hn with hn | hn
      · rw [hn, setPhysical_physicalLines]
        exact_mod_cast Nat.one_le_iff_ne_zero.mpr (by simp [renderLineCount])
      · exact ih _ n hn

/-- The first rendered entry of a layout pass records the starting
offset. -/
theorem renderTreeLayout_head_offset (filterActive : Bool) (width : Int) :
    ∀ (ns : List JSONNode) (off : Int) (n : JSONNode),
      (renderTreeLayout filterActive width ns off).head? = some n →
      n.physicalOffset = off := by
  intro ns
  induction ns with
  | nil => intro off n hn; simp [renderTreeLayout] at hn
  | cons x rest ih =>
    intro off n hn
    rw [renderTreeLayout] at hn
    by_cases hskip : filterActive ∧ ¬x.matchesSearch ∧ ¬hasMatchingChild x
    · rw [if_pos hskip] at hn
      exact ih off n hn
    · rw [if_neg hskip] at hn
      simp only [List.head?_cons, Option.some_inj] at hn
      rw [← hn, setPhysical_physicalOffset]

/-- Consecutive rendered entries chain their offsets by the preceding
entry's span. -/
theorem renderTreeLayout_chain (filterActive : Bool) (width : Int) :
    ∀ (ns : List JSONNode) (off : Int),
      List.Chain' (fun a b => b.physicalOffset = a.physicalOffset + a.physicalLines)
        (renderTreeLayout filterActive width ns off) := by
  intro ns
  induction ns with
  | nil => intro off; simp [renderTreeLayout]
  | cons x rest ih =>
    intro off
    rw [renderTreeLayout]
    by_cases hskip : filterActive ∧ ¬x.matchesSearch ∧ ¬hasMatchingChild x
    · rw [if_pos hskip]
      exact ih off
    · rw [if_neg hskip]
      refine List.chain'_cons'.mpr ⟨?_, ih _⟩
      intro y hy
      have := renderTreeLayout_head_offset filterActive width rest
        (off + (renderLineCount width x : Int)) y hy
      rw [this, setPhysical_physicalOffset, setPhysical_physicalLines]

/-- C6: after a render pass, consecutive rendered entries satisfy the
offset recurrence (each offset is the previous offset plus the previous
span) and every rendered entry's span is at least one physical line. -/
theorem physical_offset_invariant (m : JSONExplorerModel) :
    List.Chain' (fun a b => b.physicalOffset = a.physicalOffset + a.physicalLines)
      (renderTreeEntries m) ∧
    ∀ n ∈ renderTreeEntries m, 1 ≤ n.physicalLines :=
  ⟨renderTreeLayout_chain m.filterActive m.width m.flatNodes 0,
    fun n hn => renderTreeLayout_lines_pos m.filterActive m.width m.flatNodes 0 n hn⟩

/-! Claim C1. -/

/-- C1 counterexample: an in-range cursor entry spanning five physical rows
in a two-row viewport is scrolled so only its bottom rows are visible; the
claimed full-span containment fails for the code as written. -/
theorem cursor_visibility_counterexample :
    0 ≤ tallEntryExplorer.cursor ∧
    tallEntryExplorer.cursor < (tallEntryExplorer.flatNodes.length : Int) ∧
    tallEntryExplorer.flatNodes.get? tallEntryExplorer.cursor.toNat = some tallEntryNode ∧
    (ensureCursorVisible tallEntryExplorer).yOffset = 3 ∧
    ¬((ensureCursorVisible tallEntryExplorer).yOffset ≤ tallEntryNode.physicalOffset ∧
      tallEntryNode.physicalOffset + tallEntryNode.physicalLines - 1 ≤
        (ensureCursorVisible tallEntryExplorer).yOffset + tallEntryExplorer.vpHeight - 1) :=
  ⟨by decide, by decide, rfl, by decide, by decide⟩

/-- C1 corrected: for an in-range cursor whose recorded span is at least
one row and fits within the viewport height, and with nonnegative recorded
offset and viewport top, ensureCursorVisible leaves the cursor entry's full
physical row span inside the visible row range; when the entry's offset was
above the viewport top the viewport scrolls up exactly to that offset, and
when the entry's last row was below the viewport bottom the viewport
scrolls down so the entry's last row is the viewport's last row. -/
theorem cursor_visibility_corrected (m : JSONExplorerModel) (n : JSONNode)
    (hget : m.flatNodes.get? m.cursor.toNat = some n)
    (hc0 : 0 ≤ m.cursor) (hclt : m.cursor < (m.flatNodes.length : Int))
    (hl1 : 1 ≤ n.physicalLines) (hlh : n.physicalLines ≤ m.vpHeight)
    (ho : 0 ≤ n.physicalOffset) (hy : 0 ≤ m.yOffset) :
    ((ensureCursorVisible m).yOffset ≤ n.physicalOffset ∧
      n.physicalOffset + n.physicalLines - 1 ≤ (ensureCursorVisible m).yOffset + m.vpHeight - 1) ∧
    (n.physicalOffset < m.yOffset → (ensureCursorVisible m).yOffset = n.physicalOffset) ∧
    (m.yOffset ≤ n.physicalOffset →
      m.yOffset + m.vpHeight - 1 < n.physicalOffset + n.physicalLines - 1 →
      (ensureCursorVisible m).yOffset = n.physicalOffset + n.physicalLines - m.vpHeight) := by
  have hguard : ¬(m.cursor < 0 ∨ m.cursor ≥ (m.flatNodes.length : Int)) := by omega
  have hred : (ensureCursorVisible m).yOffset =
      ensureVisibleYOffset n.physicalOffset n.physicalLines m.yOffset m.vpHeight := by
    rw [ensureCursorVisible, if_neg hguard, hget]
  rw [hred]
  simp only [ensureVisibleYOffset]
  split_ifs <;> simp_all <;> omega

/-- Witness for the corrected cursor-visibility theorem: an entry starting
above the viewport top is scrolled up exactly to its offset and its two
rows both become visible. -/
theorem cursor_visibility_corrected_witness :
    (1 ≤ scrolledExplorerNode.physicalLines ∧
      scrolledExplorerNode.physicalLines ≤ scrolledExplorer.vpHeight) ∧
    ((ensureCursorVisible scrolledExplorer).yOffset ≤ scrolledExplorerNode.physicalOffset ∧
      scrolledExplorerNode.physicalOffset + scrolledExplorerNode.physicalLines - 1 ≤
        (ensureCursorVisible scrolledExplorer).yOffset + scrolledExplorer.vpHeight - 1) ∧
    (scrolledExplorerNode.physicalOffset < scrolledExplorer.yOffset →
      (ensureCursorVisible scrolledExplorer).yOffset = scrolledExplorerNode.physicalOffset) ∧
    (scrolledExplorer.yOffset ≤ scrolledExplorerNode.physicalOffset →
      scrolledExplorer.yOffset + scrolledExplorer.vpHeight - 1 <
        scrolledExplorerNode.physicalOffset + scrolledExplorerNode.physicalLines - 1 →
      (ensureCursorVisible scrolledExplorer).yOffset =
        scrolledExplorerNode.physicalOffset + scrolledExplorerNode.physicalLines -
          scrolledExplorer.vpHeight) :=
  ⟨⟨by decide, by decide⟩,
    cursor_visibility_corrected scrolledExplorer scrolledExplorerNode rfl
      (by decide) (by decide) (by decide) (by decide) (by decide) (by decide)⟩

/-! Claim C4. -/

/-- C4: from the exploring state with back navigation allowed (the shape in
which the state was entered via selection), the back key returns the flow
to selection, resets the explorer to its zero value, and clears the
selector's quitting flag and prior choice; from the exploring state entered
directly with JSON data (back navigation disallowed), the same key makes
the explorer quit and the flow transitions to quitting. -/
theorem back_navigation_contract (m : UnifiedFlowModel)
    (h1 : m.state = .exploringJSON) (h2 : m.allowBack = true) :
    ((flowUpdate (.key "q") m).state = .selectingPR ∧
      (flowUpdate (.key "q") m).jsonExplorer = emptyJSONExplorerModel ∧
      (flowUpdate (.key "q") m).prSelector.quitting = false ∧
      (flowUpdate (.key "q") m).prSelector.choice = none) ∧
    ∀ v : JSONVal, (flowUpdate (.key "q") (newUnifiedFlowWithJSON v)).state = .quitting ∧
      (flowUpdate (.key "q") (newUnifiedFlowWithJSON v)).jsonExplorer.quitting = true := by
  constructor
  · simp [flowUpdate, h1, h2]
  · intro v
    constructor <;> rfl

/-- Witness for the back-navigation theorem at a concrete flow that is
exploring a tree entered from the selection list with a stale choice. -/
theorem back_navigation_contract_witness :
    (exploringFromSelection.state = FlowState.exploringJSON ∧
      exploringFromSelection.allowBack = true) ∧
    ((flowUpdate (.key "q") exploringFromSelection).state = .selectingPR ∧
      (flowUpdate (.key "q") exploringFromSelection).jsonExplorer = emptyJSONExplorerModel ∧
      (flowUpdate (.key "q") exploringFromSelection).prSelector.quitting = false ∧
      (flowUpdate (.key "q") exploringFromSelection).prSelector.choice = none) ∧
    ∀ v : JSONVal, (flowUpdate (.key "q") (newUnifiedFlowWithJSON v)).state = .quitting ∧
      (flowUpdate (.key "q") (newUnifiedFlowWithJSON v)).jsonExplorer.quitting = true :=
  ⟨⟨rfl, rfl⟩, back_navigation_contract exploringFromSelection rfl rfl⟩

/-! Claim C7. -/

/-- C7 counterexample: a batch in which every item failed completes with
the generic fatal message, not with the first recorded per-item error, so
the claim that the first per-item error is surfaced fails on the code. -/
theorem all_failed_batch_counterexample :
    (flowUpdate (.prefetchComplete [] ["list failed for r1", "list failed for r2"])
        loadingFlow).err = some "no PRs with comments available" ∧
    (some "no PRs with comments available" : Option String) ≠ some "list failed for r1" ∧
    (flowUpdate (.prefetchComplete [] ["list failed for r1", "list failed for r2"])
        loadingFlow).state = .quitting :=
  ⟨rfl, by decide, rfl⟩

/-- C7 corrected: an all-failed batch is fatal, but the error surfaced is
the generic message that no items with comments remain (the per-item errors
carried by the completion message are discarded); a batch with at least one
success proceeds to selection over exactly the surviving items, leaving the
session error unchanged, with no per-item failure treated as fatal. -/
theorem all_failed_batch_corrected (m : UnifiedFlowModel) (errs : List String)
    (prs : List PullRequestSummary) (h : m.state = .loading) :
    ((flowUpdate (.prefetchComplete [] errs) m).state = .quitting ∧
      (flowUpdate (.prefetchComplete [] errs) m).err = some "no PRs with comments available") ∧
    (prs ≠ [] →
      (flowUpdate (.prefetchComplete prs errs) m).state = .selectingPR ∧
      (flowUpdate (.prefetchComplete prs errs) m).prSelector.items = prs ∧
      (flowUpdate (.prefetchComplete prs errs) m).err = m.err) := by
  constructor
  · simp [flowUpdate, h]
  · intro hne
    have hlen : ¬(prs.length = 0) := by
      simpa [List.length_eq_zero] using hne
    simp only [flowUpdate, h]
    rw [if_neg hlen]
    dsimp only
    split_ifs <;> simp [prSelectorUpdate, newPRSelectorModel]

/-- Witness for the corrected all-failed-batch theorem on the concrete
loading flow: an empty surviving batch quits with the generic error, and a
surviving batch of one proceeds to selection over it. -/
theorem all_failed_batch_corrected_witness :
    (loadingFlow.state = FlowState.loading ∧ ([prA] : List PullRequestSummary) ≠ []) ∧
    (((flowUpdate (.prefetchComplete [] ["boom"]) loadingFlow).state = .quitting ∧
      (flowUpdate (.prefetchComplete [] ["boom"]) loadingFlow).err =
        some "no PRs with comments available") ∧
    ([prA] ≠ ([] : List PullRequestSummary) →
      (flowUpdate (.prefetchComplete [prA] ["boom"]) loadingFlow).state = .selectingPR ∧
      (flowUpdate (.prefetchComplete [prA] ["boom"]) loadingFlow).prSelector.items = [prA] ∧
      (flowUpdate (.prefetchComplete [prA] ["boom"]) loadingFlow).err = loadingFlow.err)) :=
  ⟨⟨rfl, by simp⟩, all_failed_batch_corrected loadingFlow ["boom"] [prA] rfl⟩

/-! Claim C3. -/

/-- Tokenization loses no characters. -/
theorem toksText_wrapTokens (cs : Chars) : toksText (wrapTokens cs) = cs := by
  induction cs with
  | nil => rfl
  | cons c rest ih =>
    simp only [wrapTokens]
    by_cases hc : isWrapSpace c
    · simp only [hc, if_true]
      cases hts : wrapTokens rest with
      | nil =>
        rw [hts] at ih
        simp [toksText, ← ih]
      | cons tok t =>
        cases tok with
        | sp r =>
          rw [hts] at ih
          simp only [toksText] at ih ⊢
          simp [← ih]
        | wd r =>
          rw [hts] at ih
          simp only [toksText] at ih ⊢
          simp [← ih, toksText]
    · simp only [hc, if_false]
      cases hts : wrapTokens rest with
      | nil =>
        rw [hts] at ih
        simp [toksText, ← ih]
      | cons tok t =>
        cases tok with
        | wd r =>
          rw [hts] at ih
          simp only [toksText] at ih ⊢
          simp [← ih]
        | sp r =>
          rw [hts] at ih
          simp only [toksText] at ih ⊢
          simp [← ih, toksText]

/-- Every token the tokenizer produces is a nonempty homogeneous run. -/
theorem wrapTokens_wf (cs : Chars) : ∀ tok ∈ wrapTokens cs, wrapTokWf tok := by
  induction cs with
  | nil => intro tok htok; simp [wrapTokens] at htok
  | cons c rest ih =>
    intro tok htok
    simp only [wrapTokens] at htok
    by_cases hc : isWrapSpace c
    · rw [if_pos hc] at htok
      cases hts : wrapTokens rest with
      | nil =>
        rw [hts] at htok
        simp at htok
        subst htok
        exact ⟨by simp, by simpa using hc⟩
      | cons tok0 t =>
        rw [hts] at htok
        cases tok0 with
        | sp r =>
          rcases List.mem_cons.mp htok with h | h
          · subst h
            have hwf := ih (.sp r) (by rw [hts]; exact List.mem_cons_self _ _)
            refine ⟨by simp, ?_⟩
            intro x hx
            rcases List.mem_cons.mp hx with rfl | hx
            · exact hc
            · exact hwf.2 x hx
          · exact ih tok (by rw [hts]; exact List.mem_cons_of_mem _ h)
        | wd r =>
          rcases List.mem_cons.mp htok with h | h
          · subst h
            exact ⟨by simp, by simpa using hc⟩
          · exact ih tok (by rw [hts]; exact h)
    · rw [if_neg hc] at htok
      cases hts : wrapTokens rest with
      | nil =>
        rw [hts] at htok
        simp at htok
        subst htok
        exact ⟨by simp, by simpa using hc⟩
      | cons tok0 t =>
        rw [hts] at htok
        cases tok0 with
        | wd r =>
          rcases List.mem_cons.mp htok with h | h
          · subst h
            have hwf := ih (.wd r) (by rw [hts]; exact List.mem_cons_self _ _)
            refine ⟨by simp, ?_⟩
            intro x hx
            rcases List.mem_cons.mp hx with rfl | hx
            · simpa using hc
            · exact hwf.2 x hx
          · exact ih tok (by rw [hts]; exact List.mem_cons_of_mem _ h)
        | sp r =>
          rcases List.mem_cons.mp htok with h | h
          · subst h
            exact ⟨by simp, by simpa using hc⟩
          · exact ih tok (by rw [hts]; exact h)

/-- While the input still fits within the width, the wrap fold never
breaks: no line is flushed, the state keeps the invariant, and the current
line followed by the pending run carries exactly the input seen so far. -/
theorem wrapFold_noBreak (width : Nat) (ts : List WrapTok) :
    ∀ st : WrapState, (∀ tok ∈ ts, wrapTokWf tok) → WrapStateInv st →
      st.cur.length + st.pend.length + (toksText ts).length ≤ width →
      WrapStateInv (ts.foldl (wrapStep width) st) ∧
        (ts.foldl (wrapStep width) st).cur ++ (ts.foldl (wrapStep width) st).pend =
          st.cur ++ st.pend ++ toksText ts := by
  induction ts with
  | nil =>
    intro st _ hinv _
    exact ⟨hinv, by simp [toksText]⟩
  | cons tok rest ih =>
    intro st hwf hinv hlen
    obtain ⟨hdone, hpend, hcur⟩ := hinv
    cases tok with
    | sp r =>
      have hwf0 : wrapTokWf (.sp r) := hwf _ (List.mem_cons_self _ _)
      have hstep : wrapStep width st (.sp r) = { st with pend := st.pend ++ r } := rfl
      rw [List.foldl_cons, hstep]
      have hlen2 : st.cur.length + (st.pend ++ r).length + (toksText rest).length ≤ width := by
        simp only [toksText, List.length_append] at hlen ⊢
        omega
      have hinv2 : WrapStateInv { st with pend := st.pend ++ r } := by
        refine ⟨hdone, ?_, hcur⟩
        intro x hx
        rcases List.mem_append.mp hx with hx | hx
        · exact hpend x hx
        · exact hwf0.2 x hx
      obtain ⟨hinv3, hcat⟩ := ih _ (fun t ht => hwf t (List.mem_cons_of_mem _ ht)) hinv2 hlen2
      refine ⟨hinv3, ?_⟩
      rw [hcat]
      simp [toksText]
    | wd r =>
      have hwf0 : wrapTokWf (.wd r) := hwf _ (List.mem_cons_self _ _)
      have hfits : st.cur.length + st.pend.length + r.length ≤ width := by
        simp only [toksText, List.length_append] at hlen
        omega
      have hstep : wrapStep width st (.wd r) =
          { done := st.done, cur := st.cur ++ st.pend ++ r, pend := [] } := by
        simp [wrapStep, hfits]
      rw [List.foldl_cons, hstep]
      have hlen2 : (st.cur ++ st.pend ++ r).length + ([] : Chars).length +
          (toksText rest).length ≤ width := by
        simp only [toksText, List.length_append, List.length_nil] at hlen ⊢
        omega
      have hinv2 : WrapStateInv { done := st.done, cur := st.cur ++ st.pend ++ r, pend := [] } := by
        refine ⟨hdone, by simp, Or.inr ?_⟩
        obtain ⟨hrne, hrns⟩ := hwf0
        obtain ⟨cl, hcl⟩ := List.exists_mem_of_ne_nil r hrne
        refine ⟨r.getLast hrne, ?_, ?_⟩
        · rw [List.getLast?_append_of_ne_nil _ hrne]
          exact (List.getLast?_eq_getLast _ hrne).symm ▸ rfl
        · exact hrns _ (List.getLast_mem hrne)
      obtain ⟨hinv3, hcat⟩ := ih _ (fun t ht => hwf t (List.mem_cons_of_mem _ ht)) hinv2 hlen2
      refine ⟨hinv3, ?_⟩
      rw [hcat]
      simp [toksText]

/-- A string that fits within the width wraps to a single line: the line is
the string with its trailing whitespace run removed (the pending run the
wrap engine trims), and the line is empty or ends in non-whitespace. -/
theorem wordWrapModel_fits (s : Chars) (width : Nat) (h : s.length ≤ width) :
    ∃ cur pend : Chars, wordWrapModel s width = [cur] ∧ cur ++ pend = s ∧
      (∀ c ∈ pend, isWrapSpace c = true) ∧
      (cur = [] ∨ ∃ c, cur.getLast? = some c ∧ isWrapSpace c = false) := by
  have hlen : (⟨[], [], []⟩ : WrapState).cur.length + (⟨[], [], []⟩ : WrapState).pend.length +
      (toksText (wrapTokens s)).length ≤ width := by
    simpa [toksText_wrapTokens] using h
  obtain ⟨⟨hdone, hpend, hcur⟩, hcat⟩ :=
    wrapFold_noBreak width (wrapTokens s) ⟨[], [], []⟩ (wrapTokens_wf s) ⟨rfl, by simp, Or.inl rfl⟩ hlen
  refine ⟨((wrapTokens s).foldl (wrapStep width) ⟨[], [], []⟩).cur,
    ((wrapTokens s).foldl (wrapStep width) ⟨[], [], []⟩).pend, ?_, ?_, hpend, hcur⟩
  · rw [wordWrapModel]
    rw [hdone]
    simp
  · simpa [toksText_wrapTokens] using hcat

/-- Leading-whitespace count of a list extended on the right, when the list
already contains a non-whitespace character. -/
theorem leadingWsCount_append_left (l1 l2 : Chars) (h : ∃ x ∈ l1, isWrapSpace x = false) :
    leadingWsCount (l1 ++ l2) = leadingWsCount l1 := by
  induction l1 with
  | nil =>
    obtain ⟨x, hx, _⟩ := h
    simp at hx
  | cons a t ih =>
    by_cases ha : isWrapSpace a
    · have ht : ∃ x ∈ t, isWrapSpace x = false := by
        obtain ⟨x, hx, hxf⟩ := h
        rcases List.mem_cons.mp hx with rfl | hx
        · rw [ha] at hxf
          cases hxf
        · exact ⟨x, hx, hxf⟩
      simp only [leadingWsCount, List.cons_append, List.takeWhile_cons, ha]
      simp only [leadingWsCount] at ih
      simp [ih ht]
    · have ha2 : isWrapSpace a = false := by simpa using ha
      simp [leadingWsCount, List.takeWhile_cons, ha2]

/-- The whitespace prefix of a fully whitespace list is the whole list. -/
theorem leadingWsCount_all (l : Chars) (h : ∀ c ∈ l, isWrapSpace c = true) :
    leadingWsCount l = l.length := by
  simp [leadingWsCount, List.takeWhile_eq_self_iff.mpr h]

/-- Taking while a predicate holds walks through a wholly satisfying left
part. -/
theorem takeWhile_append_all (p : Char → Bool) (l1 l2 : Chars) (h : ∀ c ∈ l1, p c = true) :
    (l1 ++ l2).takeWhile p = l1 ++ l2.takeWhile p := by
  induction l1 with
  | nil => simp
  | cons a t ih =>
    have ha := h a (List.mem_cons_self _ _)
    simp [List.takeWhile_cons, ha, ih (fun c hc => h c (List.mem_cons_of_mem _ hc))]

/-- Trailing-whitespace count of a line extended by a whitespace run, when
the line is empty or ends in non-whitespace: exactly the run's length. -/
theorem trailingWsCount_append_ws (cur pend : Chars)
    (hp : ∀ c ∈ pend, isWrapSpace c = true)
    (hc : cur = [] ∨ ∃ c, cur.getLast? = some c ∧ isWrapSpace c = false) :
    trailingWsCount (cur ++ pend) = pend.length ∧ trailingWsCount cur = 0 := by
  have hrev : ∀ c ∈ pend.reverse, isWrapSpace c = true := by
    intro c hcm
    exact hp c (List.mem_reverse.mp hcm)
  have hcur0 : trailingWsCount cur = 0 := by
    rcases hc with rfl | ⟨c, hcl, hcf⟩
    · simp [trailingWsCount]
    · have hhead : cur.reverse.head? = some c := by rw [List.head?_reverse, hcl]
      cases hr : cur.reverse with
      | nil => simp [hr] at hhead
      | cons a t =>
        rw [hr] at hhead
        simp only [List.head?_cons, Option.some_inj] at hhead
        subst hhead
        simp [trailingWsCount, hr, List.takeWhile_cons, hcf]
  constructor
  · rcases hc with rfl | ⟨c, hcl, hcf⟩
    · simp [trailingWsCount, List.takeWhile_eq_self_iff.mpr hrev]
    · have hhead : cur.reverse.head? = some c := by rw [List.head?_reverse, hcl]
      have htw : (cur.reverse).takeWhile isWrapSpace = [] := by
        cases hr : cur.reverse with
        | nil => rfl
        | cons a t =>
          rw [hr] at hhead
          simp only [List.head?_cons, Option.some_inj] at hhead
          subst hhead
          simp [List.takeWhile_cons, hcf]
      have hres : (cur ++ pend).reverse.takeWhile isWrapSpace = pend.reverse := by
        rw [List.reverse_append, takeWhile_append_all isWrapSpace pend.reverse cur.reverse hrev, htw]
        simp
      simp only [trailingWsCount]
      rw [hres]
      simp
  · exact hcur0

/-- C3 corrected: the exact round-trip holds for every newline-free string
that fits within the wrap width (the wrap produces a single line and the
leading and trailing whitespace are intact on it); for wider strings the
wrap consumes the whitespace separating words at each break point, so
joining the produced lines does not reproduce the original in general. -/
theorem wrap_roundtrip_corrected (s : Chars) (w : Int)
    (hfit : (s.length : Int) ≤ w) (hnl : ('\n' : Char) ∉ s) :
    wrapString s w = [s] := by
  by_cases hw : w ≤ 0
  · simp [wrapString, hw]
  · have hfitn : s.length ≤ w.toNat := by omega
    obtain ⟨cur, pend, hww, hcat, hpsp, hend⟩ := wordWrapModel_fits s w.toNat hfitn
    rw [wrapString, if_neg hw, hww]
    rcases hend with hcurnil | ⟨c, hcl, hcf⟩
    · -- the wrapped line is empty: the whole string is trailing whitespace
      subst hcurnil
      have hsp : s = pend := by simpa using hcat.symm
      subst hsp
      have hallsp : ∀ x ∈ s, isWrapSpace x = true := hpsp
      have hlead : leadingWsCount s = s.length := leadingWsCount_all s hallsp
      have htrail : trailingWsCount s = s.length := by
        have := trailingWsCount_append_ws [] s hallsp (Or.inl rfl)
        simpa using this.1
      have hle0 : leadingWsCount ([] : Chars) = 0 := rfl
      simp only [List.length_cons, List.headI, hlead, hle0]
      rw [if_neg (by simp)]
      split_ifs with h1 h2 h3 h4
      · rfl
      · simp only [List.modifyHead, List.append_nil, Nat.sub_zero, List.take_length] at h3
        rw [show (([s]) : List Chars).getLastD [] = s from rfl] at h3
        rw [htrail] at h3
        exact absurd h3.2 (lt_irrefl _)
      · simp [List.modifyHead, List.take_length]
      · exact absurd h4.1 (by omega)
      · have h0 : s.length = 0 := by omega
        have hs0 : s = [] := List.length_eq_zero.mp h0
        subst hs0
        rfl
    · -- the wrapped line ends in a non-whitespace character
      have hmem : c ∈ cur := by
        have hx : c ∈ cur.getLast? := by rw [hcl]; rfl
        obtain ⟨hne, heq⟩ := List.mem_getLast?_eq_getLast hx
        exact heq ▸ List.getLast_mem hne
      have hex : ∃ x ∈ cur, isWrapSpace x = false := ⟨c, hmem, hcf⟩
      have hlead : leadingWsCount s = leadingWsCount cur := by
        rw [← hcat]
        exact leadingWsCount_append_left cur pend hex
      obtain ⟨htrail, htrail0⟩ :=
        trailingWsCount_append_ws cur pend hpsp (Or.inr ⟨c, hcl, hcf⟩)
      rw [hcat] at htrail
      have hlencat : cur.length + pend.length = s.length := by
        rw [← hcat]
        simp
      simp only [List.length_cons, List.headI, hlead, htrail]
      rw [if_neg (by simp)]
      split_ifs with h1 h2 h3 h4
      · rfl
      · exact absurd h2.2 (lt_irrefl _)
      · exact absurd h2.2 (lt_irrefl _)
      · rw [show (([cur]) : List Chars).getLastD [] = cur from rfl, htrail0, Nat.add_zero]
        rw [show s.length - pend.length = cur.length by omega]
        rw [← hcat, List.drop_left]
        simp
      · have ha : trailingWsCount ((([cur]) : List Chars).getLastD []) = 0 := htrail0
        have hp0 : pend = [] := by
          refine List.length_eq_zero.mp ?_
          by_contra hne
          exact h4 ⟨by omega, by omega⟩
        subst hp0
        simpa using hcat

/-- C3 counterexample: at the positive width two, the string with one
interior space between two words wraps to two lines whose join omits that
space, so the claimed exact round-trip (for a string with zero leading and
zero trailing spaces) fails. -/
theorem wrap_roundtrip_counterexample :
    (0 : Int) < 2 ∧
    wrapString ['a', ' ', 'b'] 2 = [['a'], ['b']] ∧
    (wrapString ['a', ' ', 'b'] 2).flatten ≠ ['a', ' ', 'b'] ∧
    leadingWsCount ['a', ' ', 'b'] = 0 ∧ trailingWsCount ['a', ' ', 'b'] = 0 := by
  refine ⟨by decide, by decide, by decide, by decide, by decide⟩

/-- Witness for the corrected round-trip theorem: a string with two leading
and one trailing space that fits in width eight is returned unchanged as a
single line. -/
theorem wrap_roundtrip_corrected_witness :
    (((([' ', ' ', 'a', 'b', ' '] : Chars).length : Int) ≤ 8 ∧
      ('\n' : Char) ∉ ([' ', ' ', 'a', 'b', ' '] : Chars)) ∧
    wrapString [' ', ' ', 'a', 'b', ' '] 8 = [[' ', ' ', 'a', 'b', ' ']]) :=
  ⟨⟨by decide, by decide⟩,
    wrap_roundtrip_corrected [' ', ' ', 'a', 'b', ' '] 8 (by decide) (by decide)⟩

/-- Witness for the render-pass offset invariant at the explorer built over
the example document. -/
theorem physical_offset_invariant_witness :
    List.Chain' (fun a b => b.physicalOffset = a.physicalOffset + a.physicalLines)
      (renderTreeEntries (newJSONExplorerModel exampleDoc)) ∧
    ∀ n ∈ renderTreeEntries (newJSONExplorerModel exampleDoc), 1 ≤ n.physicalLines :=
  physical_offset_invariant (newJSONExplorerModel exampleDoc)

/-- Witness for the non-empty flatten theorem at the example document. -/
theorem flatten_root_nonempty_witness :
    flattenTree (buildTree "" exampleDoc 0) ≠ [] ∧
    (newJSONExplorerModel exampleDoc).cursor = 0 ∧
    0 < ((newJSONExplorerModel exampleDoc).flatNodes.length : Int) :=
  ⟨(flatten_root_nonempty.1 (buildTree "" exampleDoc 0)).1,
    flatten_root_nonempty.2 exampleDoc⟩

end GhPrComments
